import Mathlib

/-!
Verification of the nano HTTP router (Go) against its specification.
The Go code is shallowly embedded: the routing trie (`tree.go`), the
router (`router.go`), the request context and handler-chain executor
(`context.go`), and the engine / router groups are translated into
executable Lean definitions, and the spec's claims are settled as
theorems about those definitions.
-/

namespace Nano

/-- The trie node of tree.go: `urlPattern` is nonempty exactly on terminal
nodes, `urlPart` is the one path segment this node matches, `childrens`
the ordered child list, `isWildcard` marks `:param` and `*wildcard` nodes. -/
inductive NanoNode where
  | mk (urlPattern urlPart : String) (childrens : List NanoNode) (isWildcard : Bool)

/-- Projection: the full registered pattern stored on a terminal node. -/
def NanoNode.urlPattern : NanoNode → String
  | NanoNode.mk v _ _ _ => v

/-- Projection: the path segment this node matches. -/
def NanoNode.urlPart : NanoNode → String
  | NanoNode.mk _ v _ _ => v

/-- Projection: the ordered list of children. -/
def NanoNode.childrens : NanoNode → List NanoNode
  | NanoNode.mk _ _ v _ => v

/-- Projection: whether the node is a `:param` / `*wildcard` node. -/
def NanoNode.isWildcard : NanoNode → Bool
  | NanoNode.mk _ _ _ v => v

/-- The zero value `&node{}` used for fresh roots. -/
def defaultNode : NanoNode := NanoNode.mk "" "" [] false

/-- Character-list prefix test, the core of `strings.HasPrefix`. -/
def charsPrefix : List Char → List Char → Bool
  | [], _ => true
  | _ :: _, [] => false
  | p :: ps, c :: cs => p == c && charsPrefix ps cs

/-- strings.HasPrefix(s, pre) of the Go standard library (also the meaning
of the `s[0] == ':'`-style byte tests of the source, with pre a single
character). -/
def goHasPrefix (s pre : String) : Bool := charsPrefix pre.data s.data

/-- Accumulator loop of `strings.Split(s, "/")`. -/
def splitSlashAux : List Char → List Char → List String
  | [], acc => [String.mk acc.reverse]
  | ch :: rest, acc =>
    if ch == '/' then String.mk acc.reverse :: splitSlashAux rest []
    else splitSlashAux rest (ch :: acc)

/-- strings.Split(s, "/") of the Go standard library. -/
def goSplitSlash (s : String) : List String := splitSlashAux s.data []

/-- Segment collection of createURLParts: stop after the first segment
starting with `*` (only one wildcard is allowed, it absorbs the rest). -/
def takeUntilStar : List String → List String
  | [] => []
  | p :: rest => if goHasPrefix p "*" then [p] else p :: takeUntilStar rest

/-- createURLParts (router.go): split on `/`, drop empty segments, and
truncate after the first `*`-segment. -/
def createURLParts (urlPattern : String) : List String :=
  takeUntilStar ((goSplitSlash urlPattern).filter (fun s => s != ""))

/-- The scan of node.findChildren (tree.go), returning the index of the
first child whose part equals the probe or which is a wildcard node. -/
def findChildIdxGo (urlPart : String) : List NanoNode → Option Nat
  | [] => none
  | c :: cs =>
    if c.urlPart == urlPart || c.isWildcard then some 0
    else (findChildIdxGo urlPart cs).map (· + 1)

/-- Functional in-place update of the i-th child (the Go code mutates the
found child through a pointer). -/
def setChildAt : Nat → NanoNode → List NanoNode → List NanoNode
  | _, _, [] => []
  | 0, x, _ :: cs => x :: cs
  | i + 1, x, c :: cs => c :: setChildAt i x cs

/-- node.insertChildren (tree.go): descend by segments, reusing the first
matching-or-wildcard child at each level, creating a child when none
matches; the terminal node's `urlPattern` is set to the full pattern. -/
def insertChildren (urlPattern : String) : List String → NanoNode → NanoNode
  | [], n => NanoNode.mk urlPattern n.urlPart n.childrens n.isWildcard
  | urlPart :: rest, n =>
    match findChildIdxGo urlPart n.childrens with
    | some i =>
        NanoNode.mk n.urlPattern n.urlPart
          (setChildAt i (insertChildren urlPattern rest (n.childrens.getD i defaultNode)) n.childrens)
          n.isWildcard
    | none =>
        NanoNode.mk n.urlPattern n.urlPart
          (n.childrens ++ [insertChildren urlPattern rest
            (NanoNode.mk "" urlPart [] (goHasPrefix urlPart ":" || goHasPrefix urlPart "*"))])
          n.isWildcard

/-- node.getChildren (tree.go): all children that equal the probe segment
or are wildcard nodes. -/
def getChildren (n : NanoNode) (urlPart : String) : List NanoNode :=
  n.childrens.filter (fun c => c.urlPart == urlPart || c.isWildcard)

/-- node.findNode (tree.go). The source loop body executes
`result := child.findNode(...); if result != nil { return result }; return nil`
for the first candidate only, so the whole search is decided by the head of
`getChildren` with no backtracking. -/
def findNode : NanoNode → List String → Option NanoNode
  | n, [] => if n.urlPattern == "" then none else some n
  | n, part :: rest =>
    if goHasPrefix n.urlPart "*" then
      (if n.urlPattern == "" then none else some n)
    else
      match getChildren n part with
      | [] => none
      | c :: _ => findNode c rest

/-- A Go value handed to `Context.JSON`, abstracting `json.Marshal` of the
external encoding library: a value either serializes to a byte string or
fails with an error. -/
inductive GoValue where
  | marshalable (bytes : String)
  | unmarshalable
deriving DecidableEq, Repr

/-- Abstraction of the external `json.Marshal`. -/
def jsonMarshal : GoValue → Except String String
  | GoValue.marshalable s => Except.ok s
  | GoValue.unmarshalable => Except.error "json: unsupported type"

/-- One observable step a Go handler body performs: call `c.Next()`, call
`c.String(code, text)`, or call `c.JSON(code, v)`. A handler
(`HandlerFunc`) is embedded as its list of such steps. -/
inductive Act where
  | aNext
  | aString (code : Nat) (text : String)
  | aJSON (code : Nat) (v : GoValue)
deriving DecidableEq, Repr

/-- A `HandlerFunc` body, embedded as its sequence of observable steps. -/
abbrev NanoHandler := List Act

/-- An event emitted to the `http.ResponseWriter`: a header set, a status
code write, or a body write, recorded in emission order. -/
inductive RespEvent where
  | header (key value : String)
  | statusCode (code : Nat)
  | bodyWrite (s : String)
deriving DecidableEq, Repr

/-- Mime and header constants of router.go. -/
def MimeJSON : String := "application/json"

/-- Plain-text mime constant of router.go. -/
def MimePlainText : String := "text/plain"

/-- Content-type header name constant of router.go. -/
def HeaderContentType : String := "Content-Type"

/-- The request Context of context.go: request data, the handler stack,
the chain cursor (a Go `int`, starting at -1), and the response sink
(`events`). `invoked` is ghost instrumentation recording, in order, the
indices of the handlers the executor invoked; it affects nothing. -/
structure Ctx where
  method : String
  path : String
  params : List (String × String)
  handlers : List NanoHandler
  cursor : Int
  invoked : List Nat
  events : List RespEvent

/-- newContext (context.go): the cursor starts before the first handler. -/
def newContext (method path : String) : Ctx :=
  { method := method, path := path, params := [], handlers := [],
    cursor := -1, invoked := [], events := [] }

/-- A fresh context whose handler stack is `hs` — the shape ServeHTTP
hands to router.handle after collecting group middlewares. -/
def ctxStart (method path : String) (hs : List NanoHandler) : Ctx :=
  { method := method, path := path, params := [], handlers := hs,
    cursor := -1, invoked := [], events := [] }

/-- Context.SetHeader: record a header write. -/
def ctxSetHeader (key value : String) (c : Ctx) : Ctx :=
  { c with events := c.events ++ [RespEvent.header key value] }

/-- Context.SetContentType. -/
def ctxSetContentType (contentType : String) (c : Ctx) : Ctx :=
  ctxSetHeader HeaderContentType contentType c

/-- Context.Status: record the status-code write. -/
def ctxStatus (statusCode : Nat) (c : Ctx) : Ctx :=
  { c with events := c.events ++ [RespEvent.statusCode statusCode] }

/-- Context body write (`c.Writer.Write`). -/
def ctxWrite (s : String) (c : Ctx) : Ctx :=
  { c with events := c.events ++ [RespEvent.bodyWrite s] }

/-- Context.String (context.go): set text/plain, set the status, write the
text (the uses relevant here pass no format arguments). -/
def ctxString (statusCode : Nat) (text : String) (c : Ctx) : Ctx :=
  ctxWrite text (ctxStatus statusCode (ctxSetContentType MimePlainText c))

/-- Context.JSON (context.go): marshal first; on error fall back to
`c.String(500, "internal server error")` and return; otherwise set the
json content type, the status, and write the encoded bytes. -/
def ctxJSON (statusCode : Nat) (object : GoValue) (c : Ctx) : Ctx :=
  match jsonMarshal object with
  | Except.error _ => ctxString 500 "internal server error" c
  | Except.ok rs => ctxWrite rs (ctxStatus statusCode (ctxSetContentType MimeJSON c))

mutual

/-- Context.Next (context.go): move the cursor one step; if the new cursor
is a valid index into the handler stack, invoke that handler. `fuel`
bounds the nesting depth of Next calls (each invocation consumes one). -/
def runNext (fuel : Nat) (c : Ctx) : Ctx :=
  match fuel with
  | 0 => c
  | fuel + 1 =>
    let cur := c.cursor + 1
    let c1 : Ctx := { c with cursor := cur }
    if cur < (c1.handlers.length : Int) then
      runActs fuel (c1.handlers.getD cur.toNat [])
        { c1 with invoked := c1.invoked ++ [cur.toNat] }
    else c1
termination_by (fuel, 0)

/-- Run a handler body: execute its steps in order against the context. -/
def runActs (fuel : Nat) (acts : List Act) (c : Ctx) : Ctx :=
  match acts with
  | [] => c
  | Act.aNext :: rest => runActs fuel rest (runNext fuel c)
  | Act.aString code text :: rest => runActs fuel rest (ctxString code text c)
  | Act.aJSON code v :: rest => runActs fuel rest (ctxJSON code v c)
termination_by (fuel, acts.length + 1)

end

/-- Lookup in a Go map embedded as a write-log: newest write first, so the
first hit is the latest assignment. -/
def mapLookup {α : Type} (m : List (String × α)) (key : String) : Option α :=
  (m.find? (fun e => e.1 == key)).map (fun e => e.2)

/-- A Go map assignment `m[key] = v`: prepend the write (latest wins). -/
def mapInsertGo {α : Type} (m : List (String × α)) (key : String) (v : α) : List (String × α) :=
  (key, v) :: m

/-- The router of router.go: per-method trie roots, the handler table keyed
by `method-pattern`, and the optional user fallback handler. -/
structure NanoRouter where
  nodes : List (String × NanoNode)
  handlers : List (String × List NanoHandler)
  defaultHandler : Option NanoHandler

/-- newRouter (router.go). -/
def emptyRouter : NanoRouter :=
  { nodes := [], handlers := [], defaultHandler := none }

/-- router.addRoute (router.go): ensure a root exists for the method,
insert the pattern into the trie, and store the handler list under the
`method-pattern` key (silently overwriting any previous entry). -/
def addRoute (r : NanoRouter) (requestMethod urlPattern : String)
    (handler : List NanoHandler) : NanoRouter :=
  let urlParts := createURLParts urlPattern
  let rootNode := (mapLookup r.nodes requestMethod).getD defaultNode
  let key := requestMethod ++ "-" ++ urlPattern
  { nodes := mapInsertGo r.nodes requestMethod (insertChildren urlPattern urlParts rootNode),
    handlers := mapInsertGo r.handlers key handler,
    defaultHandler := r.defaultHandler }

/-- The parameter-extraction loop of router.go findRoute: walk the matched
pattern's segments with their index; a `:name` segment assigns
`params[name] = searchParts[index]`, a `*name` segment (name nonempty)
assigns the `/`-joined remainder. Go map assignments are prepended. -/
def extractParamsGo (searchParts : List String) : Nat → List String →
    List (String × String) → List (String × String)
  | _, [], params => params
  | index, part :: rest, params =>
    let p1 := if goHasPrefix part ":" then
        (part.drop 1, searchParts.getD index "") :: params else params
    let p2 := if goHasPrefix part "*" && part.length > 1 then
        (part.drop 1, String.intercalate "/" (searchParts.drop index)) :: p1 else p1
    extractParamsGo searchParts (index + 1) rest p2

/-- router.findRoute (router.go): none when no root exists for the method
or the trie search fails; otherwise the found terminal node paired with
the extracted parameters. -/
def findRoute (r : NanoRouter) (requestMethod urlPath : String) :
    Option (NanoNode × List (String × String)) :=
  let searchParts := createURLParts urlPath
  match mapLookup r.nodes requestMethod with
  | none => none
  | some rootNode =>
    match findNode rootNode searchParts with
    | none => none
    | some nd => some (nd, extractParamsGo searchParts 0 (createURLParts nd.urlPattern) [])

/-- router.notFoundHandler (router.go): the built-in fallback, responding
`c.String(404, "nano/1.0 not found")`. -/
def notFoundHandlerActs : NanoHandler := [Act.aString 404 "nano/1.0 not found"]

/-- router.serveDefaultHandler (router.go): lazily create and cache the
built-in not-found fallback if no user fallback was registered, append the
fallback to the call stack, and start the chain. -/
def serveDefaultHandler (fuel : Nat) (r : NanoRouter) (c : Ctx) : NanoRouter × Ctx :=
  let r1 := match r.defaultHandler with
    | none => { r with defaultHandler := some notFoundHandlerActs }
    | some _ => r
  let c1 := { c with handlers := c.handlers ++ [r1.defaultHandler.getD []] }
  (r1, runNext fuel c1)

/-- router.handle (router.go): resolve the route; on a match append the
registered handlers, on a miss serve the default handler (which itself
starts the chain); finally call `c.Next()`. -/
def routerHandle (fuel : Nat) (r : NanoRouter) (c : Ctx) : NanoRouter × Ctx :=
  match findRoute r c.method c.path with
  | some (nd, prm) =>
    let key := c.method ++ "-" ++ nd.urlPattern
    let c1 := { c with params := prm,
                       handlers := c.handlers ++ (mapLookup r.handlers key).getD [] }
    (r, runNext fuel c1)
  | none =>
    let rc := serveDefaultHandler fuel r c
    (rc.1, runNext fuel rc.2)

/-- A router group (router.go): its full path prefix and its middlewares.
The parent pointer only matters for prefix concatenation at Group(). -/
structure NanoGroup where
  prefixStr : String
  middlewares : List NanoHandler

/-- The engine (router.go): the router and the group list, in group
registration order (New seeds the root group, Group appends). -/
structure NanoEngine where
  router : NanoRouter
  groups : List NanoGroup

/-- Engine constructor New (router.go): the root group has prefix "". -/
def newEngine : NanoEngine :=
  { router := emptyRouter, groups := [{ prefixStr := "", middlewares := [] }] }

/-- RouterGroup.Group (router.go): the child's full prefix is the parent's
prefix concatenated with the given prefix; the new group is appended to
the engine's group list. -/
def routerGroupGroup (ng : NanoEngine) (parentPrefix childPrefix : String) :
    NanoEngine × NanoGroup :=
  let g : NanoGroup := { prefixStr := parentPrefix ++ childPrefix, middlewares := [] }
  ({ ng with groups := ng.groups ++ [g] }, g)

/-- The middleware-collection scan of Engine.ServeHTTP (router.go): every
group whose prefix is a string prefix of the request path contributes its
middlewares, in group order. -/
def collectMiddlewares (groups : List NanoGroup) (path : String) : List NanoHandler :=
  groups.foldl (fun acc g => if goHasPrefix path g.prefixStr then acc ++ g.middlewares else acc) []

/-- Engine.ServeHTTP (router.go): collect group middlewares by prefix scan,
build a fresh context carrying them, and hand off to router.handle. -/
def serveHTTP (fuel : Nat) (ng : NanoEngine) (method path : String) : NanoRouter × Ctx :=
  let middlewares := collectMiddlewares ng.groups path
  let c := { newContext method path with handlers := middlewares }
  routerHandle fuel ng.router c

/-- Outcome of RouterGroup.Default: either an updated router, or the
`log.Fatal` path, which logs and terminates the process (the call never
returns and no state is produced). -/
inductive RegisterResult where
  | ok (r : NanoRouter)
  | fatal (msg : String)

/-- RouterGroup.Default (router.go): reject overriding via log.Fatal when a
fallback is already registered, else store the handler. -/
def routerGroupDefault (r : NanoRouter) (handler : NanoHandler) : RegisterResult :=
  match r.defaultHandler with
  | some _ => RegisterResult.fatal "could not register default handler because it already registered\n"
  | none => RegisterResult.ok { r with defaultHandler := some handler }

/-- Pattern/path matching at segment level: a literal pattern segment
requires equality, a `:param` segment matches any one segment, a trailing
`*wildcard` segment matches one or more remaining segments. -/
def partsMatch : List String → List String → Bool
  | [], [] => true
  | [], _ :: _ => false
  | _ :: _, [] => false
  | p :: ps, s :: rest =>
    if goHasPrefix p "*" then true
    else (goHasPrefix p ":" || p == s) && partsMatch ps rest

/-- Whether a segment list has `*`-segments only in its last position, an
invariant of every `createURLParts` output. -/
def starOnlyLastB : List String → Bool
  | [] => true
  | [_] => true
  | p :: q :: qs => !(goHasPrefix p "*") && starOnlyLastB (q :: qs)

/-- The name/value pairs the extraction loop produces, in loop order, with
the index the loop would use. -/
def bindingsList (sps : List String) : Nat → List String → List (String × String)
  | _, [] => []
  | index, part :: rest =>
    (if goHasPrefix part ":" then [(part.drop 1, sps.getD index "")] else []) ++
    (if goHasPrefix part "*" && part.length > 1 then
      [(part.drop 1, String.intercalate "/" (sps.drop index))] else []) ++
    bindingsList sps (index + 1) rest

/-- The parameter names a pattern's segment list binds: the suffixes of its
`:name` segments and of a `*name` segment with nonempty name. -/
def boundNames (parts : List String) : List String :=
  parts.filterMap (fun p =>
    if goHasPrefix p ":" then some (p.drop 1)
    else if goHasPrefix p "*" && p.length > 1 then some (p.drop 1) else none)

/-- Structural invariant of trie nodes at depth `d`: a terminal node's
stored pattern has exactly `d` segments, recursively for all children. -/
inductive TreeOK : NanoNode → Nat → Prop where
  | intro (n : NanoNode) (d : Nat)
      (hpat : n.urlPattern ≠ "" → (createURLParts n.urlPattern).length = d)
      (hch : ∀ c ∈ n.childrens, TreeOK c (d + 1)) : TreeOK n d

/-- Router invariant: every trie root reachable by method lookup is a
well-formed depth-0 tree. Holds for the empty router and is preserved by
addRoute. -/
def RouterOK (r : NanoRouter) : Prop :=
  ∀ meth root, mapLookup r.nodes meth = some root → TreeOK root 0

/-! Helper lemmas about the embedded code. -/

@[simp]
theorem urlPattern_mk (a b : String) (cs : List NanoNode) (w : Bool) :
    (NanoNode.mk a b cs w).urlPattern = a := rfl

@[simp]
theorem urlPart_mk (a b : String) (cs : List NanoNode) (w : Bool) :
    (NanoNode.mk a b cs w).urlPart = b := rfl

@[simp]
theorem childrens_mk (a b : String) (cs : List NanoNode) (w : Bool) :
    (NanoNode.mk a b cs w).childrens = cs := rfl

@[simp]
theorem isWildcard_mk (a b : String) (cs : List NanoNode) (w : Bool) :
    (NanoNode.mk a b cs w).isWildcard = w := rfl

theorem runNext_zero (c : Ctx) : runNext 0 c = c := by
  rw [runNext]

theorem runNext_succ_pos (fuel : Nat) (c : Ctx)
    (h : c.cursor + 1 < (c.handlers.length : Int)) :
    runNext (fuel + 1) c =
      runActs fuel (c.handlers.getD (c.cursor + 1).toNat [])
        { c with cursor := c.cursor + 1, invoked := c.invoked ++ [(c.cursor + 1).toNat] } := by
  rw [runNext]
  simp only [if_pos h]

theorem runNext_succ_neg (fuel : Nat) (c : Ctx)
    (h : ¬ c.cursor + 1 < (c.handlers.length : Int)) :
    runNext (fuel + 1) c = { c with cursor := c.cursor + 1 } := by
  rw [runNext]
  simp only [if_neg h]

theorem runActs_nil (fuel : Nat) (c : Ctx) : runActs fuel [] c = c := by
  rw [runActs]

theorem runActs_next (fuel : Nat) (rest : List Act) (c : Ctx) :
    runActs fuel (Act.aNext :: rest) c = runActs fuel rest (runNext fuel c) := by
  rw [runActs]

theorem runActs_string (fuel : Nat) (code : Nat) (text : String) (rest : List Act) (c : Ctx) :
    runActs fuel (Act.aString code text :: rest) c = runActs fuel rest (ctxString code text c) := by
  rw [runActs]

theorem runActs_json (fuel : Nat) (code : Nat) (v : GoValue) (rest : List Act) (c : Ctx) :
    runActs fuel (Act.aJSON code v :: rest) c = runActs fuel rest (ctxJSON code v c) := by
  rw [runActs]

theorem ctxString_fields (code : Nat) (text : String) (c : Ctx) :
    (ctxString code text c).handlers = c.handlers ∧
    (ctxString code text c).cursor = c.cursor ∧
    (ctxString code text c).invoked = c.invoked := by
  simp [ctxString, ctxWrite, ctxStatus, ctxSetContentType, ctxSetHeader]

theorem ctxJSON_fields (code : Nat) (v : GoValue) (c : Ctx) :
    (ctxJSON code v c).handlers = c.handlers ∧
    (ctxJSON code v c).cursor = c.cursor ∧
    (ctxJSON code v c).invoked = c.invoked := by
  unfold ctxJSON
  cases jsonMarshal v with
  | error e => exact ctxString_fields 500 "internal server error" c
  | ok rs => simp [ctxWrite, ctxStatus, ctxSetContentType, ctxSetHeader]

/-- The executor never changes the handler stack: neither Next nor any
handler body mutates `handlers`. -/
theorem run_preserves_handlers (fuel : Nat) :
    (∀ c : Ctx, (runNext fuel c).handlers = c.handlers) ∧
    (∀ (acts : List Act) (c : Ctx), (runActs fuel acts c).handlers = c.handlers) := by
  induction fuel with
  | zero =>
    constructor
    · intro c; rw [runNext_zero]
    · intro acts
      induction acts with
      | nil => intro c; rw [runActs_nil]
      | cons a rest ih =>
        intro c
        cases a with
        | aNext => rw [runActs_next, ih, runNext_zero]
        | aString code text => rw [runActs_string, ih]; exact (ctxString_fields code text c).1
        | aJSON code v => rw [runActs_json, ih]; exact (ctxJSON_fields code v c).1
  | succ f ihf =>
    have hnext : ∀ c : Ctx, (runNext (f + 1) c).handlers = c.handlers := by
      intro c
      by_cases h : c.cursor + 1 < (c.handlers.length : Int)
      · rw [runNext_succ_pos f c h, ihf.2]
      · rw [runNext_succ_neg f c h]
    constructor
    · exact hnext
    · intro acts
      induction acts with
      | nil => intro c; rw [runActs_nil]
      | cons a rest ih =>
        intro c
        cases a with
        | aNext => rw [runActs_next, ih, hnext]
        | aString code text => rw [runActs_string, ih]; exact (ctxString_fields code text c).1
        | aJSON code v => rw [runActs_json, ih]; exact (ctxJSON_fields code v c).1

/-- The executor only ever appends to the invocation record. -/
theorem run_extends_invoked (fuel : Nat) :
    (∀ c : Ctx, ∃ l, (runNext fuel c).invoked = c.invoked ++ l) ∧
    (∀ (acts : List Act) (c : Ctx), ∃ l, (runActs fuel acts c).invoked = c.invoked ++ l) := by
  induction fuel with
  | zero =>
    constructor
    · intro c; exact ⟨[], by rw [runNext_zero]; simp⟩
    · intro acts
      induction acts with
      | nil => intro c; exact ⟨[], by rw [runActs_nil]; simp⟩
      | cons a rest ih =>
        intro c
        cases a with
        | aNext =>
          obtain ⟨l, hl⟩ := ih (runNext 0 c)
          exact ⟨l, by rw [runActs_next, hl, runNext_zero]⟩
        | aString code text =>
          obtain ⟨l, hl⟩ := ih (ctxString code text c)
          exact ⟨l, by rw [runActs_string, hl, (ctxString_fields code text c).2.2]⟩
        | aJSON code v =>
          obtain ⟨l, hl⟩ := ih (ctxJSON code v c)
          exact ⟨l, by rw [runActs_json, hl, (ctxJSON_fields code v c).2.2]⟩
  | succ f ihf =>
    have hnext : ∀ c : Ctx, ∃ l, (runNext (f + 1) c).invoked = c.invoked ++ l := by
      intro c
      by_cases h : c.cursor + 1 < (c.handlers.length : Int)
      · obtain ⟨l, hl⟩ := ihf.2 (c.handlers.getD (c.cursor + 1).toNat [])
          { c with cursor := c.cursor + 1, invoked := c.invoked ++ [(c.cursor + 1).toNat] }
        exact ⟨(c.cursor + 1).toNat :: l, by rw [runNext_succ_pos f c h, hl]; simp⟩
      · exact ⟨[], by rw [runNext_succ_neg f c h]; simp⟩
    constructor
    · exact hnext
    · intro acts
      induction acts with
      | nil => intro c; exact ⟨[], by rw [runActs_nil]; simp⟩
      | cons a rest ih =>
        intro c
        cases a with
        | aNext =>
          obtain ⟨l1, hl1⟩ := hnext c
          obtain ⟨l2, hl2⟩ := ih (runNext (f + 1) c)
          exact ⟨l1 ++ l2, by rw [runActs_next, hl2, hl1]; simp⟩
        | aString code text =>
          obtain ⟨l, hl⟩ := ih (ctxString code text c)
          exact ⟨l, by rw [runActs_string, hl, (ctxString_fields code text c).2.2]⟩
        | aJSON code v =>
          obtain ⟨l, hl⟩ := ih (ctxJSON code v c)
          exact ⟨l, by rw [runActs_json, hl, (ctxJSON_fields code v c).2.2]⟩

/-! The claims. -/

/-- C9: when the value passed to Context.JSON cannot be serialized, the
operation degrades to the plain-text 500 response `internal server error`:
it emits exactly the text/plain content type, status 500 and that body, it
emits no JSON content-type header, and every body byte it leaves behind is
either pre-existing or the fixed error text — nothing from the failed
encoding is written. -/
theorem c9_json_failure_recovered (c : Ctx) (statusCode : Nat) (v : GoValue) (e : String)
    (h : jsonMarshal v = Except.error e) :
    ctxJSON statusCode v c = ctxString 500 "internal server error" c ∧
    (ctxJSON statusCode v c).events =
      c.events ++ [RespEvent.header HeaderContentType MimePlainText,
        RespEvent.statusCode 500, RespEvent.bodyWrite "internal server error"] ∧
    (RespEvent.header HeaderContentType MimeJSON ∉ c.events →
      RespEvent.header HeaderContentType MimeJSON ∉ (ctxJSON statusCode v c).events) ∧
    (∀ s : String, RespEvent.bodyWrite s ∈ (ctxJSON statusCode v c).events →
      RespEvent.bodyWrite s ∈ c.events ∨ s = "internal server error") := by
  have heq : ctxJSON statusCode v c = ctxString 500 "internal server error" c := by
    unfold ctxJSON
    rw [h]
  refine ⟨heq, ?_, ?_, ?_⟩
  · rw [heq]
    simp [ctxString, ctxWrite, ctxStatus, ctxSetContentType, ctxSetHeader]
  · intro hnot hmem
    rw [heq] at hmem
    simp [ctxString, ctxWrite, ctxStatus, ctxSetContentType, ctxSetHeader,
      HeaderContentType, MimeJSON, MimePlainText] at hmem
    exact hnot hmem
  · intro s hmem
    rw [heq] at hmem
    simp [ctxString, ctxWrite, ctxStatus, ctxSetContentType, ctxSetHeader] at hmem
    rcases hmem with hmem | hmem
    · exact Or.inl hmem
    · exact Or.inr hmem

/-- Witness for C9 at a concrete unserializable value and fresh context. -/
theorem c9_witness :
    (ctxJSON 200 GoValue.unmarshalable (newContext "GET" "/x")).events =
      [RespEvent.header HeaderContentType MimePlainText,
       RespEvent.statusCode 500, RespEvent.bodyWrite "internal server error"] := by
  have h := c9_json_failure_recovered (newContext "GET" "/x") 200 GoValue.unmarshalable
    "json: unsupported type" rfl
  rw [h.2.1]
  simp [newContext]

/-- C3 counterexample: with a fallback already registered, registering a
second one takes the `log.Fatal` path — the process terminates; the call
does not return an error value to the caller. -/
theorem c3_counterexample :
    routerGroupDefault
      { emptyRouter with defaultHandler := some [Act.aString 200 "first"] }
      [Act.aString 200 "second"]
      = RegisterResult.fatal
          "could not register default handler because it already registered\n" := rfl

/-- C3 amended: registering a second fallback handler when one is already
registered makes the registration call terminate the program via log.Fatal
with a fixed message (rather than returning an error to the caller); no
router state containing the second handler is ever produced, so the first
handler remains the stored one. -/
theorem c3_amended (r : NanoRouter) (handler h0 : NanoHandler)
    (hset : r.defaultHandler = some h0) :
    routerGroupDefault r handler =
      RegisterResult.fatal
        "could not register default handler because it already registered\n" := by
  unfold routerGroupDefault
  rw [hset]

/-- Witness for C3 at a concrete router with the built-in fallback set. -/
theorem c3_witness :
    routerGroupDefault { emptyRouter with defaultHandler := some notFoundHandlerActs } [] =
      RegisterResult.fatal
        "could not register default handler because it already registered\n" :=
  c3_amended _ [] notFoundHandlerActs rfl

/-- C2: at a level the search recurses into the first candidate child only
(the head of getChildren) — if that recursion fails the search fails, even
when a later sibling would have matched. Concretely: after registering
`/a/b/c` then `/a/:x/d`, the request `/a/b/d` finds nothing, although the
second candidate at level 1 (the `:x` node) would have matched it; with
the registrations in the opposite order the same request matches
`/a/:x/d`, so ambiguous lookups are decided by insertion order. -/
theorem c2_first_candidate_only :
    (∀ (n : NanoNode) (part : String) (rest : List String),
      goHasPrefix n.urlPart "*" = false →
      findNode n (part :: rest) =
        (match getChildren n part with
         | [] => none
         | c :: _ => findNode c rest)) ∧
    ((findRoute (addRoute (addRoute emptyRouter "GET" "/a/b/c" [[]]) "GET" "/a/:x/d" [[]])
        "GET" "/a/b/d").map (fun pr => pr.1.urlPattern) = none) ∧
    ((getChildren
        (((mapLookup (addRoute (addRoute emptyRouter "GET" "/a/b/c" [[]])
          "GET" "/a/:x/d" [[]]).nodes "GET").getD defaultNode).childrens.getD 0 defaultNode)
        "b").length = 2) ∧
    ((findNode
        ((getChildren
          (((mapLookup (addRoute (addRoute emptyRouter "GET" "/a/b/c" [[]])
            "GET" "/a/:x/d" [[]]).nodes "GET").getD defaultNode).childrens.getD 0 defaultNode)
          "b").getD 1 defaultNode)
        ["d"]).map NanoNode.urlPattern = some "/a/:x/d") ∧
    ((findRoute (addRoute (addRoute emptyRouter "GET" "/a/:x/d" [[]]) "GET" "/a/b/c" [[]])
        "GET" "/a/b/d").map (fun pr => pr.1.urlPattern) = some "/a/:x/d") := by
  refine ⟨?_, rfl, rfl, rfl, rfl⟩
  intro n part rest h
  rw [findNode]
  rw [h]
  simp

/-- Witness for C2's universal conjunct at a concrete node. -/
theorem c2_witness :
    findNode defaultNode ["q"] =
      (match getChildren defaultNode "q" with
       | [] => none
       | c :: _ => findNode c []) :=
  c2_first_candidate_only.1 defaultNode "q" [] rfl

/-- C4 counterexample: in the handler stack
`[[Next; Next], [], [String 200 "h2"]]` the middle handler never calls
Next, yet handler 2 — a subsequent handler in the list — is still invoked
(by the first handler's second Next call): the executor's invocation
record is `[0, 1, 2]`. So a handler that never calls Next does not
guarantee that no subsequent handler runs. -/
theorem c4_counterexample :
    (Act.aNext ∉ ([] : List Act)) ∧
    ({ newContext "GET" "/" with
        handlers := [[Act.aNext, Act.aNext], [], [Act.aString 200 "h2"]] } : Ctx).handlers.getD 1 [] = [] ∧
    (runNext 10 { newContext "GET" "/" with
        handlers := [[Act.aNext, Act.aNext], [], [Act.aString 200 "h2"]] }).invoked = [0, 1, 2] := by
  refine ⟨by simp, rfl, ?_⟩
  simp [runNext, runActs, ctxString, ctxWrite, ctxStatus, ctxSetContentType,
    ctxSetHeader, newContext]

/-- C4 amended: the chain cursor starts at -1; one call to Next increments
the cursor by exactly one and invokes the handler at the new index iff
that index is valid, and is a silent no-op (only the increment) once the
cursor passes the end of the list; a handler that never calls Next does
not itself advance the chain or invoke anything — but a subsequent handler
can still be invoked later by an earlier handler calling Next again. -/
theorem c4_chain_executor :
    (∀ m p : String, (newContext m p).cursor = -1) ∧
    (∀ (fuel : Nat) (c : Ctx), ¬ c.cursor + 1 < (c.handlers.length : Int) →
      runNext (fuel + 1) c = { c with cursor := c.cursor + 1 }) ∧
    (∀ (fuel : Nat) (c : Ctx), c.cursor + 1 < (c.handlers.length : Int) →
      runNext (fuel + 1) c =
        runActs fuel (c.handlers.getD (c.cursor + 1).toNat [])
          { c with cursor := c.cursor + 1, invoked := c.invoked ++ [(c.cursor + 1).toNat] } ∧
      ∃ l, (runNext (fuel + 1) c).invoked = c.invoked ++ (c.cursor + 1).toNat :: l) ∧
    (∀ (fuel : Nat) (acts : List Act) (c : Ctx), Act.aNext ∉ acts →
      (runActs fuel acts c).invoked = c.invoked ∧ (runActs fuel acts c).cursor = c.cursor) := by
  refine ⟨fun m p => rfl, fun fuel c h => runNext_succ_neg fuel c h, ?_, ?_⟩
  · intro fuel c h
    refine ⟨runNext_succ_pos fuel c h, ?_⟩
    obtain ⟨l, hl⟩ := (run_extends_invoked fuel).2 (c.handlers.getD (c.cursor + 1).toNat [])
      { c with cursor := c.cursor + 1, invoked := c.invoked ++ [(c.cursor + 1).toNat] }
    refine ⟨l, ?_⟩
    rw [runNext_succ_pos fuel c h, hl]
    simp
  · intro fuel acts
    induction acts with
    | nil => intro c _; rw [runActs_nil]; exact ⟨rfl, rfl⟩
    | cons a rest ih =>
      intro c hnot
      cases a with
      | aNext => exact absurd (List.mem_cons_self _ _) hnot
      | aString code text =>
        have h2 := ih (ctxString code text c) (fun hm => hnot (List.mem_cons_of_mem _ hm))
        rw [runActs_string]
        exact ⟨h2.1.trans (ctxString_fields code text c).2.2,
               h2.2.trans (ctxString_fields code text c).2.1⟩
      | aJSON code v =>
        have h2 := ih (ctxJSON code v c) (fun hm => hnot (List.mem_cons_of_mem _ hm))
        rw [runActs_json]
        exact ⟨h2.1.trans (ctxJSON_fields code v c).2.2,
               h2.2.trans (ctxJSON_fields code v c).2.1⟩

/-- Witness for C4 applying the no-op, invocation and non-advancing parts
at concrete inputs. -/
theorem c4_witness :
    runNext (2 + 1) (newContext "GET" "/") =
      { newContext "GET" "/" with cursor := (newContext "GET" "/").cursor + 1 } ∧
    (∃ l, (runNext (4 + 1) ({ newContext "GET" "/" with handlers := [[]] } : Ctx)).invoked =
      ({ newContext "GET" "/" with handlers := [[]] } : Ctx).invoked ++
        ((({ newContext "GET" "/" with handlers := [[]] } : Ctx).cursor + 1).toNat :: l)) ∧
    (runActs 5 [Act.aString 404 "x"] (newContext "GET" "/")).invoked =
      (newContext "GET" "/").invoked :=
  ⟨c4_chain_executor.2.1 2 (newContext "GET" "/") (by decide),
   (c4_chain_executor.2.2.1 4 { newContext "GET" "/" with handlers := [[]] } (by decide)).2,
   (c4_chain_executor.2.2.2 5 [Act.aString 404 "x"] (newContext "GET" "/") (by decide)).1⟩

/-- C6: a routing miss is never an error: router.handle on a context with
no pre-collected middlewares appends exactly one fallback handler (the
user one if registered, else the built-in not-found responder, created
lazily and cached in the router for reuse) and invokes it; with no user
fallback the response is exactly HTTP 404 with the fixed body
`nano/1.0 not found`; a router that already has a fallback is left
unchanged. -/
theorem c6_miss_serves_fallback (fuel : Nat) (r : NanoRouter) (m p : String)
    (hmiss : findRoute r m p = none) :
    (routerHandle (fuel + 1) r (newContext m p)).1.defaultHandler =
      some (r.defaultHandler.getD notFoundHandlerActs) ∧
    (routerHandle (fuel + 1) r (newContext m p)).2.handlers =
      [r.defaultHandler.getD notFoundHandlerActs] ∧
    0 ∈ (routerHandle (fuel + 1) r (newContext m p)).2.invoked ∧
    (r.defaultHandler = none →
      (routerHandle (fuel + 1) r (newContext m p)).2.events =
        [RespEvent.header HeaderContentType MimePlainText, RespEvent.statusCode 404,
         RespEvent.bodyWrite "nano/1.0 not found"]) ∧
    (∀ h, r.defaultHandler = some h → (routerHandle (fuel + 1) r (newContext m p)).1 = r) := by
  have hmiss' : findRoute r (newContext m p).method (newContext m p).path = none := hmiss
  cases hdh : r.defaultHandler with
  | none =>
    have hserve : serveDefaultHandler (fuel + 1) r (newContext m p) =
        ({ r with defaultHandler := some notFoundHandlerActs },
         runNext (fuel + 1) (ctxStart m p [notFoundHandlerActs])) := by
      simp [serveDefaultHandler, hdh, newContext, ctxStart]
    have hhandle : routerHandle (fuel + 1) r (newContext m p) =
        ({ r with defaultHandler := some notFoundHandlerActs },
         runNext (fuel + 1) (runNext (fuel + 1) (ctxStart m p [notFoundHandlerActs]))) := by
      rw [routerHandle, hmiss', hserve]
    rw [hhandle]
    have hrun : runNext (fuel + 1) (ctxStart m p [notFoundHandlerActs]) =
        { method := m, path := p, params := [], handlers := [notFoundHandlerActs],
          cursor := 0, invoked := [0],
          events := [RespEvent.header HeaderContentType MimePlainText,
            RespEvent.statusCode 404, RespEvent.bodyWrite "nano/1.0 not found"] } := by
      rw [runNext_succ_pos _ _ (by simp [ctxStart])]
      simp [ctxStart, notFoundHandlerActs, runActs_string, runActs_nil,
        ctxString, ctxWrite, ctxStatus, ctxSetContentType, ctxSetHeader]
    rw [hrun, runNext_succ_neg _ _ (by simp)]
    refine ⟨by simp [hdh], rfl, by simp, fun _ => rfl, ?_⟩
    intro h hcontra
    exact absurd hcontra (by simp)
  | some uh =>
    have hserve : serveDefaultHandler (fuel + 1) r (newContext m p) =
        (r, runNext (fuel + 1) (ctxStart m p [uh])) := by
      simp [serveDefaultHandler, hdh, newContext, ctxStart]
    have hhandle : routerHandle (fuel + 1) r (newContext m p) =
        (r, runNext (fuel + 1) (runNext (fuel + 1) (ctxStart m p [uh]))) := by
      rw [routerHandle, hmiss', hserve]
    rw [hhandle]
    have hstep : runNext (fuel + 1) (ctxStart m p [uh]) =
        runActs fuel uh
          { method := m, path := p, params := [], handlers := [uh],
            cursor := 0, invoked := [0], events := [] } := by
      rw [runNext_succ_pos _ _ (by simp [ctxStart])]
      simp [ctxStart]
    obtain ⟨l1, hl1⟩ := (run_extends_invoked fuel).2 uh
      { method := m, path := p, params := [], handlers := [uh],
        cursor := 0, invoked := [0], events := [] }
    obtain ⟨l2, hl2⟩ := (run_extends_invoked (fuel + 1)).1
      (runNext (fuel + 1) (ctxStart m p [uh]))
    refine ⟨by simp [hdh], ?_, ?_, ?_, fun h _ => rfl⟩
    · rw [(run_preserves_handlers (fuel + 1)).1, (run_preserves_handlers (fuel + 1)).1]
      simp [hdh, ctxStart]
    · rw [hl2, hstep, hl1]
      simp
    · intro hcontra
      exact absurd hcontra (by simp)

/-- Witness for C6: a request `GET /unregistered` against the empty router
yields exactly the built-in 404 response and caches the built-in fallback. -/
theorem c6_witness :
    (routerHandle (4 + 1) emptyRouter (newContext "GET" "/unregistered")).2.events =
      [RespEvent.header HeaderContentType MimePlainText, RespEvent.statusCode 404,
       RespEvent.bodyWrite "nano/1.0 not found"] ∧
    (routerHandle (4 + 1) emptyRouter (newContext "GET" "/unregistered")).1.defaultHandler =
      some notFoundHandlerActs :=
  ⟨(c6_miss_serves_fallback 4 emptyRouter "GET" "/unregistered" rfl).2.2.2.1 rfl,
   (c6_miss_serves_fallback 4 emptyRouter "GET" "/unregistered" rfl).1⟩

/-- The ServeHTTP middleware fold, started from an arbitrary accumulator,
appends the middlewares of exactly the prefix-matching groups in order. -/
theorem collect_foldl (path : String) (gs : List NanoGroup) :
    ∀ acc : List NanoHandler,
      gs.foldl (fun acc g => if goHasPrefix path g.prefixStr then acc ++ g.middlewares else acc) acc =
        acc ++ ((gs.filter (fun g => goHasPrefix path g.prefixStr)).map
          (fun g => g.middlewares)).flatten := by
  induction gs with
  | nil => intro acc; simp
  | cons g rest ih =>
    intro acc
    by_cases h : goHasPrefix path g.prefixStr
    · simp only [List.foldl_cons, List.filter_cons, h, if_pos, ih]
      simp [h]
    · simp only [List.foldl_cons, List.filter_cons, h, if_neg, ih]
      simp [h]

/-- C7: middleware collection is an independent per-group prefix scan —
for every request the collected list is exactly the concatenation, in
group-registration order, of the middlewares of every group whose full
prefix is a string prefix of the request path; on a matched route the
context's handler list is those middlewares followed by the route's
handlers; overlapping groups `/api` and `/api/v1` both contribute to a
request to `/api/v1/x`, in registration order. -/
theorem c7_group_middlewares :
    (∀ (groups : List NanoGroup) (path : String),
      collectMiddlewares groups path =
        ((groups.filter (fun g => goHasPrefix path g.prefixStr)).map
          (fun g => g.middlewares)).flatten) ∧
    (∀ (fuel : Nat) (ng : NanoEngine) (method path : String)
        (nd : NanoNode) (prm : List (String × String)),
      findRoute ng.router method path = some (nd, prm) →
      (serveHTTP fuel ng method path).2.handlers =
        collectMiddlewares ng.groups path ++
          (mapLookup ng.router.handlers (method ++ "-" ++ nd.urlPattern)).getD []) ∧
    collectMiddlewares
      [{ prefixStr := "/api", middlewares := [[Act.aString 200 "apiMW"]] },
       { prefixStr := "/api/v1", middlewares := [[Act.aString 200 "v1MW"]] }] "/api/v1/x"
      = [[Act.aString 200 "apiMW"], [Act.aString 200 "v1MW"]] := by
  refine ⟨?_, ?_, rfl⟩
  · intro groups path
    rw [collectMiddlewares, collect_foldl path groups []]
    simp
  · intro fuel ng method path nd prm hfound
    have hfound' : findRoute ng.router
        ({ newContext method path with handlers := collectMiddlewares ng.groups path } : Ctx).method
        ({ newContext method path with handlers := collectMiddlewares ng.groups path } : Ctx).path
        = some (nd, prm) := hfound
    rw [serveHTTP, routerHandle]
    rw [hfound']
    rw [(run_preserves_handlers fuel).1]
    rfl

/-- Witness for C7's matched-route conjunct at a concrete engine with one
group middleware and one registered route. -/
theorem c7_witness :
    (serveHTTP 3
      { router := addRoute emptyRouter "GET" "/x" [[Act.aString 200 "H"]],
        groups := [{ prefixStr := "/", middlewares := [[Act.aString 200 "MW"]] }] }
      "GET" "/x").2.handlers
      = [[Act.aString 200 "MW"], [Act.aString 200 "H"]] := by
  have h := c7_group_middlewares.2.1 3
    { router := addRoute emptyRouter "GET" "/x" [[Act.aString 200 "H"]],
      groups := [{ prefixStr := "/", middlewares := [[Act.aString 200 "MW"]] }] }
    "GET" "/x" (NanoNode.mk "/x" "x" [] false) [] rfl
  rw [h]
  rfl

/-- Insertion never changes a node's own segment text. -/
theorem insert_urlPart (pat : String) (ps : List String) (n : NanoNode) :
    (insertChildren pat ps n).urlPart = n.urlPart := by
  cases ps with
  | nil => rfl
  | cons p rest =>
    rcases h : findChildIdxGo p n.childrens with _ | i <;> simp [insertChildren, h]

/-- Insertion never changes a node's wildcard flag. -/
theorem insert_isWildcard (pat : String) (ps : List String) (n : NanoNode) :
    (insertChildren pat ps n).isWildcard = n.isWildcard := by
  cases ps with
  | nil => rfl
  | cons p rest =>
    rcases h : findChildIdxGo p n.childrens with _ | i <;> simp [insertChildren, h]

/-- A found child index is in bounds. -/
theorem findChildIdxGo_lt (u : String) (cs : List NanoNode) :
    ∀ i, findChildIdxGo u cs = some i → i < cs.length := by
  induction cs with
  | nil => intro i h; simp [findChildIdxGo] at h
  | cons c rest ih =>
    intro i h
    rw [findChildIdxGo] at h
    by_cases hc : (c.urlPart == u || c.isWildcard) = true
    · rw [if_pos hc] at h
      cases h
      simp
    · rw [if_neg hc] at h
      rcases Option.map_eq_some'.mp h with ⟨j, hj, hij⟩
      subst hij
      exact Nat.succ_lt_succ (ih j hj)

/-- Reading back the updated slot. -/
theorem getD_setChildAt (x d : NanoNode) :
    ∀ (cs : List NanoNode) (i : Nat), i < cs.length → (setChildAt i x cs).getD i d = x := by
  intro cs
  induction cs with
  | nil => intro i h; simp at h
  | cons c rest ih =>
    intro i h
    cases i with
    | zero => rfl
    | succ j => exact ih j (Nat.lt_of_succ_lt_succ h)

/-- Updating the same slot twice keeps only the second write. -/
theorem setChildAt_setChildAt (x y : NanoNode) :
    ∀ (cs : List NanoNode) (i : Nat), setChildAt i x (setChildAt i y cs) = setChildAt i x cs := by
  intro cs
  induction cs with
  | nil => intro i; simp [setChildAt]
  | cons c rest ih =>
    intro i
    cases i with
    | zero => rfl
    | succ j => simp [setChildAt, ih j]

/-- The child scan is unaffected by replacing a child with one of the same
segment text and wildcard flag. -/
theorem findChildIdxGo_setChildAt (u : String) (x : NanoNode) :
    ∀ (cs : List NanoNode) (i : Nat), i < cs.length →
      x.urlPart = (cs.getD i defaultNode).urlPart →
      x.isWildcard = (cs.getD i defaultNode).isWildcard →
      findChildIdxGo u (setChildAt i x cs) = findChildIdxGo u cs := by
  intro cs
  induction cs with
  | nil => intro i h; simp at h
  | cons c rest ih =>
    intro i hlt hpart hwild
    cases i with
    | zero =>
      have hgd : (c :: rest).getD 0 defaultNode = c := rfl
      rw [hgd] at hpart hwild
      show findChildIdxGo u (x :: rest) = findChildIdxGo u (c :: rest)
      rw [findChildIdxGo, findChildIdxGo, hpart, hwild]
    | succ j =>
      have hgd : (c :: rest).getD (j + 1) defaultNode = rest.getD j defaultNode := rfl
      rw [hgd] at hpart hwild
      show findChildIdxGo u (c :: setChildAt j x rest) = findChildIdxGo u (c :: rest)
      rw [findChildIdxGo, findChildIdxGo, ih j (Nat.lt_of_succ_lt_succ hlt) hpart hwild]

/-- Updating the slot one past the end of `cs ++ [y]` replaces `y`. -/
theorem setChildAt_append_len (x y : NanoNode) :
    ∀ cs : List NanoNode, setChildAt cs.length x (cs ++ [y]) = cs ++ [x] := by
  intro cs
  induction cs with
  | nil => rfl
  | cons c rest ih => simp [setChildAt, ih]

/-- Reading the slot one past the end of `cs ++ [y]` yields `y`. -/
theorem getD_append_len (y d : NanoNode) :
    ∀ cs : List NanoNode, (cs ++ [y]).getD cs.length d = y := by
  intro cs
  induction cs with
  | nil => rfl
  | cons c rest ih => simp [ih]

/-- Appending a child to a scan that found nothing: the appended child is
found iff it matches. -/
theorem findChildIdxGo_append_none (u : String) (x : NanoNode) :
    ∀ cs : List NanoNode, findChildIdxGo u cs = none →
      findChildIdxGo u (cs ++ [x]) =
        if (x.urlPart == u || x.isWildcard) = true then some cs.length else none := by
  intro cs
  induction cs with
  | nil =>
    intro _
    by_cases hc : (x.urlPart == u || x.isWildcard) = true
    · simp [findChildIdxGo, hc]
    · simp [findChildIdxGo, hc]
  | cons c rest ih =>
    intro h
    rw [findChildIdxGo] at h
    by_cases hc : (c.urlPart == u || c.isWildcard) = true
    · rw [if_pos hc] at h; cases h
    · rw [if_neg hc] at h
      have hrest : findChildIdxGo u rest = none := by
        cases hr : findChildIdxGo u rest with
        | none => rfl
        | some j => rw [hr] at h; simp at h
      have hres := ih hrest
      show findChildIdxGo u (c :: (rest ++ [x])) = _
      rw [findChildIdxGo, if_neg hc, hres]
      by_cases hx : (x.urlPart == u || x.isWildcard) = true
      · simp [hx]
      · simp [hx]

/-- Unfolding of insertChildren when a matching child exists. -/
theorem insertChildren_cons_some (pat p : String) (rest : List String) (n : NanoNode) (i : Nat)
    (h : findChildIdxGo p n.childrens = some i) :
    insertChildren pat (p :: rest) n =
      NanoNode.mk n.urlPattern n.urlPart
        (setChildAt i (insertChildren pat rest (n.childrens.getD i defaultNode)) n.childrens)
        n.isWildcard := by
  rw [insertChildren, h]

/-- Unfolding of insertChildren when no child matches. -/
theorem insertChildren_cons_none (pat p : String) (rest : List String) (n : NanoNode)
    (h : findChildIdxGo p n.childrens = none) :
    insertChildren pat (p :: rest) n =
      NanoNode.mk n.urlPattern n.urlPart
        (n.childrens ++ [insertChildren pat rest
          (NanoNode.mk "" p [] (goHasPrefix p ":" || goHasPrefix p "*"))])
        n.isWildcard := by
  rw [insertChildren, h]

/-- Re-inserting the same pattern along the same segments is a no-op: the
second insertion follows exactly the path of the first and rewrites the
same terminal with the same value. -/
theorem insert_insert (pat : String) :
    ∀ (ps : List String) (n : NanoNode),
      insertChildren pat ps (insertChildren pat ps n) = insertChildren pat ps n := by
  intro ps
  induction ps with
  | nil => intro n; rfl
  | cons p rest ih =>
    intro n
    rcases h : findChildIdxGo p n.childrens with _ | i
    · rw [insertChildren_cons_none pat p rest n h]
      have hxcond : ((insertChildren pat rest
          (NanoNode.mk "" p [] (goHasPrefix p ":" || goHasPrefix p "*"))).urlPart == p ||
          (insertChildren pat rest
            (NanoNode.mk "" p [] (goHasPrefix p ":" || goHasPrefix p "*"))).isWildcard) = true := by
        rw [insert_urlPart]
        simp
      have hscr : findChildIdxGo p (NanoNode.mk n.urlPattern n.urlPart
          (n.childrens ++ [insertChildren pat rest
            (NanoNode.mk "" p [] (goHasPrefix p ":" || goHasPrefix p "*"))])
          n.isWildcard).childrens = some n.childrens.length := by
        show findChildIdxGo p (n.childrens ++ [insertChildren pat rest
          (NanoNode.mk "" p [] (goHasPrefix p ":" || goHasPrefix p "*"))]) = some n.childrens.length
        rw [findChildIdxGo_append_none p _ n.childrens h, if_pos hxcond]
      rw [insertChildren_cons_some pat p rest _ n.childrens.length hscr]
      show NanoNode.mk n.urlPattern n.urlPart _ n.isWildcard = NanoNode.mk n.urlPattern n.urlPart _ n.isWildcard
      congr 1
      show setChildAt n.childrens.length
        (insertChildren pat rest ((n.childrens ++ [insertChildren pat rest
          (NanoNode.mk "" p [] (goHasPrefix p ":" || goHasPrefix p "*"))]).getD
            n.childrens.length defaultNode))
        (n.childrens ++ [insertChildren pat rest
          (NanoNode.mk "" p [] (goHasPrefix p ":" || goHasPrefix p "*"))]) = _
      rw [getD_append_len, ih, setChildAt_append_len]
    · have hlt : i < n.childrens.length := findChildIdxGo_lt p n.childrens i h
      rw [insertChildren_cons_some pat p rest n i h]
      have hscr : findChildIdxGo p (NanoNode.mk n.urlPattern n.urlPart
          (setChildAt i (insertChildren pat rest (n.childrens.getD i defaultNode)) n.childrens)
          n.isWildcard).childrens = some i := by
        show findChildIdxGo p
          (setChildAt i (insertChildren pat rest (n.childrens.getD i defaultNode)) n.childrens) = some i
        rw [findChildIdxGo_setChildAt p _ n.childrens i hlt
          (insert_urlPart pat rest _) (insert_isWildcard pat rest _), h]
      rw [insertChildren_cons_some pat p rest _ i hscr]
      show NanoNode.mk n.urlPattern n.urlPart _ n.isWildcard = NanoNode.mk n.urlPattern n.urlPart _ n.isWildcard
      congr 1
      show setChildAt i (insertChildren pat rest
        ((setChildAt i (insertChildren pat rest (n.childrens.getD i defaultNode)) n.childrens).getD
          i defaultNode))
        (setChildAt i (insertChildren pat rest (n.childrens.getD i defaultNode)) n.childrens) = _
      rw [getD_setChildAt _ _ n.childrens i hlt, ih, setChildAt_setChildAt]

/-- Lookup at the key just written. -/
theorem mapLookup_cons_self {α : Type} (k : String) (v : α) (rest : List (String × α)) :
    mapLookup ((k, v) :: rest) k = some v := by
  simp [mapLookup]

/-- Lookup at another key skips the head write. -/
theorem mapLookup_cons_ne {α : Type} (k k2 : String) (v : α) (rest : List (String × α))
    (h : k ≠ k2) :
    mapLookup ((k, v) :: rest) k2 = mapLookup rest k2 := by
  have hb : (k == k2) = false := by simp [h]
  simp [mapLookup, List.find?, hb]

/-- C8: registering the identical (method, pattern) twice leaves findRoute
behavior unchanged relative to the first registration — the re-insertion
reuses the same trie path and rewrites the same terminal node with the
same pattern — and the handler table silently stores the second
registration's handlers under the same key, with no error. -/
theorem c8_idempotent_reregistration (r : NanoRouter) (m p : String)
    (hs1 hs2 : List NanoHandler) :
    (∀ m2 path2 : String,
      findRoute (addRoute (addRoute r m p hs1) m p hs2) m2 path2 =
        findRoute (addRoute r m p hs1) m2 path2) ∧
    mapLookup (addRoute (addRoute r m p hs1) m p hs2).handlers (m ++ "-" ++ p) = some hs2 := by
  constructor
  · intro m2 path2
    have hroot : mapLookup (addRoute r m p hs1).nodes m =
        some (insertChildren p (createURLParts p) ((mapLookup r.nodes m).getD defaultNode)) := by
      show mapLookup ((m, insertChildren p (createURLParts p)
        ((mapLookup r.nodes m).getD defaultNode)) :: r.nodes) m = _
      rw [mapLookup_cons_self]
    have hnodes : ∀ meth : String,
        mapLookup (addRoute (addRoute r m p hs1) m p hs2).nodes meth =
          mapLookup (addRoute r m p hs1).nodes meth := by
      intro meth
      by_cases hm : meth = m
      · subst hm
        show mapLookup ((meth, insertChildren p (createURLParts p)
          ((mapLookup (addRoute r meth p hs1).nodes meth).getD defaultNode))
            :: (addRoute r meth p hs1).nodes) meth = _
        rw [mapLookup_cons_self, hroot, Option.getD_some, insert_insert, ← hroot]
      · show mapLookup ((m, insertChildren p (createURLParts p)
          ((mapLookup (addRoute r m p hs1).nodes m).getD defaultNode))
            :: (addRoute r m p hs1).nodes) meth = _
        rw [mapLookup_cons_ne m meth _ _ (fun hh => hm hh.symm)]
    rw [findRoute, findRoute, hnodes m2]
  · show mapLookup ((m ++ "-" ++ p, hs2) :: (addRoute r m p hs1).handlers) (m ++ "-" ++ p) = some hs2
    rw [mapLookup_cons_self]

/-- Unfolding of findNode on the empty segment list. -/
theorem findNode_nil (n : NanoNode) :
    findNode n [] = if n.urlPattern == "" then none else some n := by
  rw [findNode]

/-- Unfolding of findNode on a nonempty segment list. -/
theorem findNode_cons (n : NanoNode) (part : String) (rest : List String) :
    findNode n (part :: rest) =
      if goHasPrefix n.urlPart "*" then
        (if n.urlPattern == "" then none else some n)
      else
        (match getChildren n part with
         | [] => none
         | c :: _ => findNode c rest) := by
  rw [findNode]

/-- Every createURLParts output has `*`-segments only in last position. -/
theorem starOnlyLast_takeUntilStar : ∀ l : List String, starOnlyLastB (takeUntilStar l) = true := by
  intro l
  induction l with
  | nil => rfl
  | cons p rest ih =>
    rw [takeUntilStar]
    by_cases h : goHasPrefix p "*" = true
    · rw [if_pos h]; rfl
    · rw [if_neg h]
      cases hT : takeUntilStar rest with
      | nil => rfl
      | cons q qs =>
        show starOnlyLastB (p :: q :: qs) = true
        rw [starOnlyLastB]
        rw [hT] at ih
        simp [h, ih]

/-- Finding a freshly inserted single-pattern chain: inserting segments
`ps` below an empty non-wildcard node and searching any segment list that
matches `ps` reaches the terminal carrying the inserted pattern. -/
theorem findNode_insert_chain :
    ∀ (ps sps : List String) (pat u : String) (w : Bool),
      pat ≠ "" → starOnlyLastB ps = true → partsMatch ps sps = true →
      goHasPrefix u "*" = false →
      (findNode (insertChildren pat ps (NanoNode.mk "" u [] w)) sps).map
        NanoNode.urlPattern = some pat := by
  intro ps
  induction ps with
  | nil =>
    intro sps pat u w hne _ hmatch _
    cases sps with
    | nil =>
      have hbe : (pat == "") = false := by simp [hne]
      show (findNode (NanoNode.mk pat u [] w) []).map NanoNode.urlPattern = some pat
      rw [findNode_nil]
      simp [hbe]
    | cons s sps2 => simp [partsMatch] at hmatch
  | cons p rest ih =>
    intro sps pat u w hne hsol hmatch hu
    have hins : insertChildren pat (p :: rest) (NanoNode.mk "" u [] w) =
        NanoNode.mk "" u
          [insertChildren pat rest
            (NanoNode.mk "" p [] (goHasPrefix p ":" || goHasPrefix p "*"))] w := by
      rw [insertChildren_cons_none pat p rest (NanoNode.mk "" u [] w) rfl]
      rfl
    rw [hins]
    by_cases hstar : goHasPrefix p "*" = true
    · -- wildcard segment: it is the last one, and it matches one or more
      -- remaining search segments.
      have hrest : rest = [] := by
        cases rest with
        | nil => rfl
        | cons q qs =>
          rw [starOnlyLastB, hstar] at hsol
          simp at hsol
      subst hrest
      cases sps with
      | nil => rw [partsMatch] at hmatch; exact absurd hmatch (by simp)
      | cons s sps2 =>
        rw [findNode_cons, if_neg (by simp [hu])]
        have hc : insertChildren pat []
            (NanoNode.mk "" p [] (goHasPrefix p ":" || goHasPrefix p "*")) =
            NanoNode.mk pat p [] (goHasPrefix p ":" || goHasPrefix p "*") := rfl
        rw [hc]
        have hfil : getChildren (NanoNode.mk "" u
            [NanoNode.mk pat p [] (goHasPrefix p ":" || goHasPrefix p "*")] w) s =
            [NanoNode.mk pat p [] (goHasPrefix p ":" || goHasPrefix p "*")] := by
          show List.filter _ [NanoNode.mk pat p [] (goHasPrefix p ":" || goHasPrefix p "*")] = _
          rw [List.filter_cons]
          simp [hstar]
        rw [hfil]
        have hbe : (pat == "") = false := by simp [hne]
        cases sps2 with
        | nil =>
          show (findNode (NanoNode.mk pat p [] _) []).map NanoNode.urlPattern = some pat
          rw [findNode_nil]
          simp [hbe]
        | cons s2 sps3 =>
          show (findNode (NanoNode.mk pat p [] _) (s2 :: sps3)).map NanoNode.urlPattern = some pat
          rw [findNode_cons]
          have hp : goHasPrefix (NanoNode.mk pat p []
              (goHasPrefix p ":" || goHasPrefix p "*")).urlPart "*" = true := hstar
          rw [if_pos hp]
          simp [hbe]
    · -- literal or parameter segment: descend into the unique child.
      have hstar2 : goHasPrefix p "*" = false := by
        cases hpp : goHasPrefix p "*" with
        | false => rfl
        | true => exact absurd hpp hstar
      cases sps with
      | nil => rw [partsMatch] at hmatch; exact absurd hmatch (by simp)
      | cons s sps2 =>
        rw [partsMatch, if_neg hstar] at hmatch
        have hmatch2 : ((goHasPrefix p ":" || p == s) && partsMatch rest sps2) = true := hmatch
        rw [Bool.and_eq_true] at hmatch2
        have hcond : (goHasPrefix p ":" || p == s) = true := hmatch2.1
        have hrestm : partsMatch rest sps2 = true := hmatch2.2
        have hsol2 : starOnlyLastB rest = true := by
          cases rest with
          | nil => rfl
          | cons q qs =>
            rw [starOnlyLastB, hstar2] at hsol
            simpa using hsol
        rw [findNode_cons, if_neg (by simp [hu])]
        have hcnd2 : ((insertChildren pat rest
            (NanoNode.mk "" p [] (goHasPrefix p ":" || goHasPrefix p "*"))).urlPart == s ||
            (insertChildren pat rest
              (NanoNode.mk "" p [] (goHasPrefix p ":" || goHasPrefix p "*"))).isWildcard) = true := by
          rw [insert_urlPart, insert_isWildcard]
          show ((p == s) || (goHasPrefix p ":" || goHasPrefix p "*")) = true
          rw [Bool.or_eq_true] at hcond
          rcases hcond with hc | hc
          · simp [hc]
          · simp [hc]
        have hfil : getChildren (NanoNode.mk "" u
            [insertChildren pat rest
              (NanoNode.mk "" p [] (goHasPrefix p ":" || goHasPrefix p "*"))] w) s =
            [insertChildren pat rest
              (NanoNode.mk "" p [] (goHasPrefix p ":" || goHasPrefix p "*"))] := by
          show List.filter _ [insertChildren pat rest
            (NanoNode.mk "" p [] (goHasPrefix p ":" || goHasPrefix p "*"))] = _
          rw [List.filter_cons]
          simp only [urlPart_mk, isWildcard_mk, hcnd2, if_pos]
          rfl
        rw [hfil]
        exact ih sps2 pat p _ hne hsol2 hrestm hstar2

/-- C1 counterexample: with `/a/:x` registered and then `/a/b` registered
for GET, the literal segment `b` is captured by the pre-existing parameter
child `:x`, whose terminal pattern is overwritten to `/a/b`; the request
path `/a/z` matches the registered pattern `/a/:x`, yet findRoute returns
a terminal whose pattern is `/a/b`, not `/a/:x`. -/
theorem c1_counterexample :
    partsMatch (createURLParts "/a/:x") (createURLParts "/a/z") = true ∧
    ((findRoute (addRoute (addRoute emptyRouter "GET" "/a/:x" [[]]) "GET" "/a/b" [[]])
        "GET" "/a/z").map (fun pr => pr.1.urlPattern)) = some "/a/b" ∧
    ("/a/b" : String) ≠ "/a/:x" := ⟨rfl, rfl, by decide⟩

/-- C1 amended: the registration/lookup round-trip holds when the
registered (method, pattern) pair is the only registration (and the
pattern is nonempty): every concrete path matching the pattern is resolved
by findRoute to a terminal node whose stored pattern is exactly the
registered one. With further overlapping registrations the claim fails
(parameter-node merging and first-candidate descent, see the
counterexample). -/
theorem c1_roundtrip_single (method pat path : String) (hs : List NanoHandler)
    (hne : pat ≠ "")
    (hmatch : partsMatch (createURLParts pat) (createURLParts path) = true) :
    ((findRoute (addRoute emptyRouter method pat hs) method path).map
      (fun pr => pr.1.urlPattern)) = some pat := by
  have hroot : mapLookup (addRoute emptyRouter method pat hs).nodes method =
      some (insertChildren pat (createURLParts pat) defaultNode) := by
    show mapLookup ((method, insertChildren pat (createURLParts pat)
      ((mapLookup ([] : List (String × NanoNode)) method).getD defaultNode)) :: []) method = _
    rw [mapLookup_cons_self]
    rfl
  have hchain : (findNode (insertChildren pat (createURLParts pat) defaultNode)
      (createURLParts path)).map NanoNode.urlPattern = some pat :=
    findNode_insert_chain (createURLParts pat) (createURLParts path)
      pat "" false hne (starOnlyLast_takeUntilStar _) hmatch rfl
  cases hfn : findNode (insertChildren pat (createURLParts pat) defaultNode)
      (createURLParts path) with
  | none =>
    rw [hfn] at hchain
    simp at hchain
  | some nd =>
    rw [hfn] at hchain
    have hpat : nd.urlPattern = pat := by simpa using hchain
    simp only [findRoute, hroot, hfn, Option.map_some]
    simp [hpat]

/-- Witness for C1 at the spec's own scenario `GET /hello/:name` /
`GET /hello/world`. -/
theorem c1_witness :
    ((findRoute (addRoute emptyRouter "GET" "/hello/:name" [[]]) "GET" "/hello/world").map
      (fun pr => pr.1.urlPattern)) = some "/hello/:name" :=
  c1_roundtrip_single "GET" "/hello/:name" "/hello/world" [[]] (by decide) rfl

/-- A string starting with `:` does not start with `*`. -/
theorem hasPrefix_colon_not_star (s : String) (h : goHasPrefix s ":" = true) :
    goHasPrefix s "*" = false := by
  unfold goHasPrefix at h ⊢
  cases hd : s.data with
  | nil => rw [hd] at h; exact absurd h (by decide)
  | cons c cs =>
    rw [hd] at h
    have hc : (':' == c) = true := by
      have : ((':' == c) && charsPrefix [] cs) = true := h
      exact (Bool.and_eq_true _ _ ▸ this).1
    have hc2 : c = ':' := (beq_iff_eq.mp hc).symm
    show charsPrefix ['*'] (c :: cs) = false
    rw [hc2]
    simp [charsPrefix]

/-- In-bounds get? from a successful lookup. -/
theorem get?_some_lt {α : Type} : ∀ (l : List α) (i : Nat) (a : α),
    l.get? i = some a → i < l.length := by
  intro l
  induction l with
  | nil => intro i a h; simp at h
  | cons x rest ih =>
    intro i a h
    cases i with
    | zero => simp
    | succ j => exact Nat.succ_lt_succ (ih j a h)

/-- get? agrees with getD in bounds. -/
theorem get?_eq_some_getD {α : Type} (d : α) : ∀ (l : List α) (i : Nat),
    i < l.length → l.get? i = some (l.getD i d) := by
  intro l
  induction l with
  | nil => intro i h; simp at h
  | cons x rest ih =>
    intro i h
    cases i with
    | zero => rfl
    | succ j => exact ih j (Nat.lt_of_succ_lt_succ h)

/-- An in-bounds getD is a member. -/
theorem getD_mem (d : NanoNode) : ∀ (l : List NanoNode) (i : Nat),
    i < l.length → l.getD i d ∈ l := by
  intro l
  induction l with
  | nil => intro i h; simp at h
  | cons x rest ih =>
    intro i h
    cases i with
    | zero => exact List.mem_cons_self _ _
    | succ j => exact List.mem_cons_of_mem _ (ih j (Nat.lt_of_succ_lt_succ h))

/-- Members of an updated child list are the new child or old members. -/
theorem mem_setChildAt (x y : NanoNode) : ∀ (cs : List NanoNode) (i : Nat),
    x ∈ setChildAt i y cs → x = y ∨ x ∈ cs := by
  intro cs
  induction cs with
  | nil => intro i h; simp [setChildAt] at h
  | cons c rest ih =>
    intro i h
    cases i with
    | zero =>
      rcases List.mem_cons.mp h with h1 | h1
      · exact Or.inl h1
      · exact Or.inr (List.mem_cons_of_mem _ h1)
    | succ j =>
      rcases List.mem_cons.mp h with h1 | h1
      · exact Or.inr (h1 ▸ List.mem_cons_self _ _)
      · rcases ih j h1 with h2 | h2
        · exact Or.inl h2
        · exact Or.inr (List.mem_cons_of_mem _ h2)

/-- Terminal-pattern component of the tree invariant. -/
theorem treeOK_pat {n : NanoNode} {d : Nat} (h : TreeOK n d) :
    n.urlPattern ≠ "" → (createURLParts n.urlPattern).length = d := by
  cases h with
  | intro _ _ hpat _ => exact hpat

/-- Child component of the tree invariant. -/
theorem treeOK_child {n : NanoNode} {d : Nat} (h : TreeOK n d) :
    ∀ c ∈ n.childrens, TreeOK c (d + 1) := by
  cases h with
  | intro _ _ _ hch => exact hch

/-- Fresh empty nodes satisfy the invariant at every depth. -/
theorem treeOK_leaf (u : String) (w : Bool) (d : Nat) : TreeOK (NanoNode.mk "" u [] w) d := by
  refine TreeOK.intro _ _ (fun h => absurd rfl h) ?_
  intro c hc
  simp at hc

/-- Insertion preserves the tree invariant when the inserted pattern's
segment count equals the insertion depth plus the remaining segments. -/
theorem treeOK_insert (pat : String) : ∀ (ps : List String) (n : NanoNode) (d : Nat),
    TreeOK n d → (createURLParts pat).length = d + ps.length →
    TreeOK (insertChildren pat ps n) d := by
  intro ps
  induction ps with
  | nil =>
    intro n d hok hlen
    refine TreeOK.intro _ _ ?_ ?_
    · intro _
      show (createURLParts pat).length = d
      simpa using hlen
    · show ∀ c ∈ n.childrens, TreeOK c (d + 1)
      exact treeOK_child hok
  | cons p rest ih =>
    intro n d hok hlen
    have hlen2 : (createURLParts pat).length = (d + 1) + rest.length := by
      rw [List.length_cons] at hlen
      omega
    rcases h : findChildIdxGo p n.childrens with _ | i
    · rw [insertChildren_cons_none pat p rest n h]
      refine TreeOK.intro _ _ ?_ ?_
      · show n.urlPattern ≠ "" → (createURLParts n.urlPattern).length = d
        exact treeOK_pat hok
      · show ∀ c ∈ n.childrens ++ [insertChildren pat rest
          (NanoNode.mk "" p [] (goHasPrefix p ":" || goHasPrefix p "*"))], TreeOK c (d + 1)
        intro c hc
        rcases List.mem_append.mp hc with hc1 | hc1
        · exact treeOK_child hok c hc1
        · have hc2 : c = insertChildren pat rest
              (NanoNode.mk "" p [] (goHasPrefix p ":" || goHasPrefix p "*")) := by
            simpa using hc1
          rw [hc2]
          exact ih _ (d + 1) (treeOK_leaf _ _ _) hlen2
    · have hlt : i < n.childrens.length := findChildIdxGo_lt p n.childrens i h
      rw [insertChildren_cons_some pat p rest n i h]
      refine TreeOK.intro _ _ ?_ ?_
      · show n.urlPattern ≠ "" → (createURLParts n.urlPattern).length = d
        exact treeOK_pat hok
      · show ∀ c ∈ setChildAt i
          (insertChildren pat rest (n.childrens.getD i defaultNode)) n.childrens, TreeOK c (d + 1)
        intro c hc
        rcases mem_setChildAt c _ n.childrens i hc with hc1 | hc1
        · rw [hc1]
          exact ih _ (d + 1)
            (treeOK_child hok _ (getD_mem defaultNode n.childrens i hlt)) hlen2
        · exact treeOK_child hok c hc1

/-- The empty router satisfies the router invariant. -/
theorem routerOK_empty : RouterOK emptyRouter := by
  intro meth root h
  simp [emptyRouter, mapLookup] at h

/-- addRoute preserves the router invariant. -/
theorem routerOK_addRoute (r : NanoRouter) (m p : String) (hs : List NanoHandler)
    (h : RouterOK r) : RouterOK (addRoute r m p hs) := by
  intro meth root hl
  by_cases hm : meth = m
  · subst hm
    have hl2 : mapLookup ((meth, insertChildren p (createURLParts p)
        ((mapLookup r.nodes meth).getD defaultNode)) :: r.nodes) meth =
        some (insertChildren p (createURLParts p)
          ((mapLookup r.nodes meth).getD defaultNode)) := mapLookup_cons_self _ _ _
    have hroot : root = insertChildren p (createURLParts p)
        ((mapLookup r.nodes meth).getD defaultNode) := by
      have h3 := hl.symm.trans hl2
      exact Option.some.inj h3
    rw [hroot]
    have hbase : TreeOK ((mapLookup r.nodes meth).getD defaultNode) 0 := by
      cases hr : mapLookup r.nodes meth with
      | none => exact treeOK_leaf "" false 0
      | some r0 => exact h meth r0 hr
    exact treeOK_insert p (createURLParts p) _ 0 hbase (by omega)
  · have hl2 : mapLookup (addRoute r m p hs).nodes meth = mapLookup r.nodes meth := by
      show mapLookup ((m, insertChildren p (createURLParts p)
        ((mapLookup r.nodes m).getD defaultNode)) :: r.nodes) meth = _
      exact mapLookup_cons_ne m meth _ _ (fun hh => hm hh.symm)
    exact h meth root (hl2 ▸ hl)

/-- A found terminal node's pattern has at most as many segments as the
search had, counting from the node's depth. -/
theorem findNode_found_len : ∀ (sps : List String) (n : NanoNode) (d : Nat) (nd : NanoNode),
    TreeOK n d → findNode n sps = some nd →
    nd.urlPattern ≠ "" ∧ (createURLParts nd.urlPattern).length ≤ d + sps.length := by
  intro sps
  induction sps with
  | nil =>
    intro n d nd hok hfn
    rw [findNode_nil] at hfn
    by_cases hp : (n.urlPattern == "") = true
    · rw [if_pos hp] at hfn; cases hfn
    · rw [if_neg hp] at hfn
      have hnd : nd = n := (Option.some.inj hfn).symm
      subst hnd
      have hne : nd.urlPattern ≠ "" := by
        intro hcontra
        exact hp (by rw [hcontra]; rfl)
      exact ⟨hne, by rw [treeOK_pat hok hne]; omega⟩
  | cons s rest ih =>
    intro n d nd hok hfn
    rw [findNode_cons] at hfn
    by_cases hstar : goHasPrefix n.urlPart "*" = true
    · rw [if_pos hstar] at hfn
      by_cases hp : (n.urlPattern == "") = true
      · rw [if_pos hp] at hfn; cases hfn
      · rw [if_neg hp] at hfn
        have hnd : nd = n := (Option.some.inj hfn).symm
        subst hnd
        have hne : nd.urlPattern ≠ "" := by
          intro hcontra
          exact hp (by rw [hcontra]; rfl)
        exact ⟨hne, by rw [treeOK_pat hok hne]; omega⟩
    · rw [if_neg hstar] at hfn
      cases hg : getChildren n s with
      | nil => rw [hg] at hfn; cases hfn
      | cons c l =>
        rw [hg] at hfn
        have hmem : c ∈ n.childrens := by
          have : c ∈ getChildren n s := by rw [hg]; exact List.mem_cons_self _ _
          exact List.mem_of_mem_filter this
        have hrec := ih c (d + 1) nd (treeOK_child hok c hmem) hfn
        refine ⟨hrec.1, ?_⟩
        have h2 := hrec.2
        simp only [List.length_cons]
        omega

/-- The extraction loop prepends exactly the bindings list, reversed. -/
theorem extract_eq (sps : List String) : ∀ (pps : List String) (index : Nat)
    (acc : List (String × String)),
    extractParamsGo sps index pps acc = (bindingsList sps index pps).reverse ++ acc := by
  intro pps
  induction pps with
  | nil => intro index acc; simp [extractParamsGo, bindingsList]
  | cons part rest ih =>
    intro index acc
    rw [extractParamsGo, bindingsList]
    by_cases hA : goHasPrefix part ":" = true
    · by_cases hB : (goHasPrefix part "*" && part.length > 1) = true
      · simp only [hA, hB, if_pos]
        rw [ih]
        simp
      · simp only [hA, if_pos, hB, if_neg]
        rw [ih]
        simp [hB]
    · by_cases hB : (goHasPrefix part "*" && part.length > 1) = true
      · simp only [hA, hB]
        rw [ih]
        simp [hA, hB]
      · simp only [hA, hB]
        rw [ih]
        simp [hA, hB]

/-- The binding names are exactly the pattern's bound parameter names. -/
theorem bindingsList_names (sps : List String) : ∀ (pps : List String) (index : Nat),
    (bindingsList sps index pps).map Prod.fst = boundNames pps := by
  intro pps
  induction pps with
  | nil => intro index; rfl
  | cons part rest ih =>
    intro index
    by_cases hA : goHasPrefix part ":" = true
    · have hB : goHasPrefix part "*" = false := hasPrefix_colon_not_star part hA
      simp [bindingsList, boundNames, hA, hB, ih]
    · by_cases hB : goHasPrefix part "*" = true
      · by_cases hL : part.length > 1
        · simp [bindingsList, boundNames, hA, hB, hL, ih]
        · simp [bindingsList, boundNames, hA, hB, hL, ih]
      · simp [bindingsList, boundNames, hA, hB, ih]

/-- A `:name` segment at index i contributes its binding. -/
theorem bindings_mem_colon (sps : List String) : ∀ (pps : List String) (index i : Nat)
    (part : String),
    pps.get? i = some part → goHasPrefix part ":" = true →
    (part.drop 1, sps.getD (index + i) "") ∈ bindingsList sps index pps := by
  intro pps
  induction pps with
  | nil => intro index i part h; simp at h
  | cons part0 rest ih =>
    intro index i part hget hcolon
    cases i with
    | zero =>
      have hp : part0 = part := Option.some.inj hget
      subst hp
      rw [bindingsList]
      refine List.mem_append.mpr (Or.inl (List.mem_append.mpr (Or.inl ?_)))
      rw [if_pos hcolon]
      simp
    | succ j =>
      rw [bindingsList]
      refine List.mem_append.mpr (Or.inr ?_)
      have hrec := ih (index + 1) j part hget hcolon
      have harith : index + 1 + j = index + (j + 1) := by omega
      rw [harith] at hrec
      exact hrec

/-- A `*name` segment at index i contributes its joined-remainder binding. -/
theorem bindings_mem_star (sps : List String) : ∀ (pps : List String) (index i : Nat)
    (part : String),
    pps.get? i = some part → goHasPrefix part "*" = true → part.length > 1 →
    (part.drop 1, String.intercalate "/" (sps.drop (index + i))) ∈ bindingsList sps index pps := by
  intro pps
  induction pps with
  | nil => intro index i part h; simp at h
  | cons part0 rest ih =>
    intro index i part hget hstar hlen
    cases i with
    | zero =>
      have hp : part0 = part := Option.some.inj hget
      subst hp
      rw [bindingsList]
      refine List.mem_append.mpr (Or.inl (List.mem_append.mpr (Or.inr ?_)))
      have hcond : (goHasPrefix part0 "*" && decide (part0.length > 1)) = true := by
        rw [hstar]
        simp [hlen]
      rw [if_pos hcond]
      simp
    | succ j =>
      rw [bindingsList]
      refine List.mem_append.mpr (Or.inr ?_)
      have hrec := ih (index + 1) j part hget hstar hlen
      have harith : index + 1 + j = index + (j + 1) := by omega
      rw [harith] at hrec
      exact hrec

/-- With pairwise distinct keys, lookup finds a member's value. -/
theorem mapLookup_of_mem_nodup {α : Type} : ∀ (l : List (String × α)) (k : String) (v : α),
    (l.map Prod.fst).Nodup → (k, v) ∈ l → mapLookup l k = some v := by
  intro l
  induction l with
  | nil => intro k v _ hmem; simp at hmem
  | cons e rest ih =>
    rcases e with ⟨k0, v0⟩
    intro k v hnodup hmem
    have hnodup2 : k0 ∉ rest.map Prod.fst ∧ (rest.map Prod.fst).Nodup := by
      rw [List.map_cons, List.nodup_cons] at hnodup
      exact hnodup
    rcases List.mem_cons.mp hmem with h1 | h1
    · have hk : k0 = k := (congrArg Prod.fst h1.symm)
      have hv : v0 = v := (congrArg Prod.snd h1.symm)
      rw [hk, hv]
      exact mapLookup_cons_self k v rest
    · have hne : k0 ≠ k := by
        intro hcontra
        have hmem2 : k ∈ rest.map Prod.fst := List.mem_map.mpr ⟨(k, v), h1, rfl⟩
        rw [hcontra] at hnodup2
        exact hnodup2.1 hmem2
      rw [mapLookup_cons_ne k0 k v0 rest hne]
      exact ih k v hnodup2.2 h1

/-- C5 counterexample: for the pattern `/p/:n/:n` (duplicate parameter
name) matched against `/p/a/b`, the `:n` segment at index 1 does not bind
`n` to its corresponding path segment `a` — the later duplicate overwrites
it, and the extracted value is `b`. -/
theorem c5_counterexample :
    (createURLParts "/p/:n/:n").get? 1 = some ":n" ∧
    goHasPrefix ":n" ":" = true ∧
    (createURLParts "/p/a/b").get? 1 = some "a" ∧
    ((findRoute (addRoute emptyRouter "GET" "/p/:n/:n" [[]]) "GET" "/p/a/b").map
      (fun pr => mapLookup pr.2 "n")) = some (some "b") ∧
    (some "b" : Option String) ≠ some "a" := ⟨rfl, rfl, rfl, rfl, by decide⟩

/-- C5 amended: on any router built by registrations, for every matched
pattern/path pair whose bound parameter names are pairwise distinct, every
`:name` segment binds `name` to exactly the corresponding segment of the
request path (empty segments having been dropped by segmentation), and a
trailing `*name` segment binds `name` to the `/`-joined remainder of the
path's segments from the wildcard's position onward. (With duplicate
names, the last binding in pattern order wins — see the counterexample.) -/
theorem c5_param_extraction (r : NanoRouter) (m path : String) (nd : NanoNode)
    (params : List (String × String))
    (hok : RouterOK r)
    (hfound : findRoute r m path = some (nd, params))
    (hnodup : (boundNames (createURLParts nd.urlPattern)).Nodup) :
    (∀ (i : Nat) (part : String), (createURLParts nd.urlPattern).get? i = some part →
      goHasPrefix part ":" = true →
      mapLookup params (part.drop 1) = (createURLParts path).get? i) ∧
    (∀ (i : Nat) (part : String), (createURLParts nd.urlPattern).get? i = some part →
      goHasPrefix part "*" = true → part.length > 1 →
      mapLookup params (part.drop 1) =
        some (String.intercalate "/" ((createURLParts path).drop i))) := by
  have hfound2 : (match mapLookup r.nodes m with
      | none => none
      | some rootNode =>
        match findNode rootNode (createURLParts path) with
        | none => none
        | some nd2 => some (nd2, extractParamsGo (createURLParts path) 0
            (createURLParts nd2.urlPattern) [])) = some (nd, params) := hfound
  cases hr : mapLookup r.nodes m with
  | none =>
    rw [hr] at hfound2
    have hfound3 : (none : Option (NanoNode × List (String × String))) =
        some (nd, params) := hfound2
    cases hfound3
  | some root =>
    rw [hr] at hfound2
    have hfound3 : (match findNode root (createURLParts path) with
      | none => none
      | some nd2 => some (nd2, extractParamsGo (createURLParts path) 0
          (createURLParts nd2.urlPattern) [])) = some (nd, params) := hfound2
    cases hfn : findNode root (createURLParts path) with
    | none =>
      rw [hfn] at hfound3
      have hfound4 : (none : Option (NanoNode × List (String × String))) =
          some (nd, params) := hfound3
      cases hfound4
    | some nd2 =>
      rw [hfn] at hfound3
      have hfound4 : some (nd2, extractParamsGo (createURLParts path) 0
          (createURLParts nd2.urlPattern) []) = some (nd, params) := hfound3
      have hpair := Option.some.inj hfound4
      have hnd : nd2 = nd := congrArg Prod.fst hpair
      subst hnd
      have hparams : params = extractParamsGo (createURLParts path) 0
          (createURLParts nd2.urlPattern) [] := (congrArg Prod.snd hpair).symm
      have hlen := findNode_found_len (createURLParts path) root 0 nd2
        (hok m root hr) hfn
      have hnd2 : (createURLParts nd2.urlPattern).length ≤ (createURLParts path).length := by
        have := hlen.2
        omega
      have hparams2 : params = (bindingsList (createURLParts path) 0
          (createURLParts nd2.urlPattern)).reverse := by
        rw [hparams, extract_eq]
        simp
      have hnodup2 : ((bindingsList (createURLParts path) 0
          (createURLParts nd2.urlPattern)).reverse.map Prod.fst).Nodup := by
        rw [List.map_reverse, List.nodup_reverse, bindingsList_names]
        exact hnodup
      constructor
      · intro i part hget hcolon
        have hi : i < (createURLParts nd2.urlPattern).length :=
          get?_some_lt _ i part hget
        have hisps : i < (createURLParts path).length := by omega
        have hmem : (part.drop 1, (createURLParts path).getD i "") ∈
            bindingsList (createURLParts path) 0 (createURLParts nd2.urlPattern) := by
          have := bindings_mem_colon (createURLParts path)
            (createURLParts nd2.urlPattern) 0 i part hget hcolon
          simpa using this
        rw [hparams2,
          mapLookup_of_mem_nodup _ _ _ hnodup2 (List.mem_reverse.mpr hmem),
          get?_eq_some_getD "" _ i hisps]
      · intro i part hget hstar hlen1
        have hmem : (part.drop 1, String.intercalate "/" ((createURLParts path).drop i)) ∈
            bindingsList (createURLParts path) 0 (createURLParts nd2.urlPattern) := by
          have := bindings_mem_star (createURLParts path)
            (createURLParts nd2.urlPattern) 0 i part hget hstar hlen1
          simpa using this
        rw [hparams2,
          mapLookup_of_mem_nodup _ _ _ hnodup2 (List.mem_reverse.mpr hmem)]

/-- Witness for C5 at the spec's scenarios: `/hello/:name` against
`/hello/world` binds `name` to `world`, and `/files/*path` against
`/files/a/b/c.txt` binds `path` to `a/b/c.txt`. -/
theorem c5_witness :
    mapLookup [("name", "world")] "name" = (createURLParts "/hello/world").get? 1 ∧
    mapLookup [("path", "a/b/c.txt")] "path" =
      some (String.intercalate "/" ((createURLParts "/files/a/b/c.txt").drop 1)) :=
  ⟨(c5_param_extraction (addRoute emptyRouter "GET" "/hello/:name" [[]]) "GET" "/hello/world"
      (NanoNode.mk "/hello/:name" ":name" [] true) [("name", "world")]
      (routerOK_addRoute _ "GET" "/hello/:name" [[]] routerOK_empty) rfl (by decide)).1
      1 ":name" rfl rfl,
   (c5_param_extraction (addRoute emptyRouter "GET" "/files/*path" [[]]) "GET" "/files/a/b/c.txt"
      (NanoNode.mk "/files/*path" "*path" [] true) [("path", "a/b/c.txt")]
      (routerOK_addRoute _ "GET" "/files/*path" [[]] routerOK_empty) rfl (by decide)).2
      1 "*path" rfl rfl (by decide)⟩

/-- C10: group middleware collection is a raw string-prefix test with no
segment-boundary check: a single group contributes its middlewares exactly
when the raw path string starts with the group's prefix string; hence the
group `/api` also contributes to the unrelated path `/apix/y`, which
starts with `/api` but not with `/api/`. -/
theorem c10_raw_prefix_scan :
    (∀ (g : NanoGroup) (path : String),
      collectMiddlewares [g] path =
        if goHasPrefix path g.prefixStr then g.middlewares else []) ∧
    collectMiddlewares
      [{ prefixStr := "/api", middlewares := [[Act.aString 200 "apiMW"]] }] "/apix/y"
      = [[Act.aString 200 "apiMW"]] ∧
    goHasPrefix "/apix/y" "/api" = true ∧
    goHasPrefix "/apix/y" "/api/" = false := by
  refine ⟨?_, rfl, rfl, rfl⟩
  intro g path
  simp [collectMiddlewares]

end Nano
